import Mathlib

/-!
Verification of the shunting-yard expression evaluator (src/shunting-yard.c).

The C program is shallowly embedded: the two stacks become Lean lists, the
scan loop over `str[0] .. str[strlen(str)]` becomes structural recursion over
the character list extended with the terminating NUL, and the `errno`-based
error reporting becomes an `Except` value carrying the error kind and the
optional column number (`NO_COL_NUM` becomes `Option.none`).

Numeric values: the C program stores operands as strings on the stack and
converts with `strtod`/`num_to_str` ("%a" hexadecimal formatting, an exact
round trip for finite doubles, which is the code's own stated reason for that
format).  The embedding idealizes double arithmetic as exact rational
arithmetic and stores the parsed numbers directly; `pow` and `tgamma` from
libm are modelled at the integer arguments the verified statements exercise.

For auditing which operators are ever handed to `apply_operator`, the
machine state additionally carries a ghost trace `tr` listing, in order, the
operator characters passed to `apply_operator`; it influences nothing else.
-/

/-- Modelled from the spec: the operand character class of the missing header
shunting-yard.h — a character belongs to an operand iff it is a decimal digit
or `.` (§4.1). -/
def is_operand (c : Char) : Bool :=
  c.isDigit || c = '.'

/-- Modelled from the spec: the operator character class of the missing header
shunting-yard.h — the known operator symbols are `+ - * / ^ !` (§1, §3);
parentheses are handled by their own branches of the scanner, and the NUL
sentinel and newline are not operators (§4.1). -/
def is_operator (c : Char) : Bool :=
  c = '+' || c = '-' || c = '*' || c = '/' || c = '^' || c = '!'

/-- The NUL character, `'\0'` in the C source. -/
def nulChar : Char := Char.ofNat 0

/-- Modelled from the spec: C `isspace` (used by `rtrim`) — space, tab,
newline, vertical tab, form feed, carriage return. -/
def isspace (c : Char) : Bool :=
  c = ' ' || c = '\t' || c = '\n' || c = Char.ofNat 11 || c = Char.ofNat 12 || c = '\r'

/-- `rtrim` from the source: remove trailing whitespace. -/
def rtrim (l : List Char) : List Char :=
  (l.reverse.dropWhile (fun c => isspace c)).reverse

/-- Value of a digit string, most significant first (each char assumed a
decimal digit at the call sites, which the operand validation guarantees). -/
def digitsVal (l : List Char) : ℕ :=
  l.foldl (fun a c => 10 * a + (c.toNat - 48)) 0

/-- Modelled from the spec: C `strtod` on the validated operand text (digits
with at most one `.`, §4.1) — integer part plus fractional part. -/
def strtod (l : List Char) : ℚ :=
  let ip := l.takeWhile (fun c => c ≠ '.')
  let fp := (l.dropWhile (fun c => c ≠ '.')).drop 1
  (digitsVal ip : ℚ) + (digitsVal fp : ℚ) / ((10 : ℚ) ^ fp.length)

/-- Modelled from the spec: libm `pow` at the natural-number exponents the
verified statements exercise (`a ^ n` for integer `n ≥ 0`); other exponents
are outside the exact rational model and are mapped to a junk value. -/
def qpow (a b : ℚ) : ℚ :=
  if 0 ≤ b.num ∧ b.den = 1 then a ^ b.num.toNat else 0

/-- Modelled from the spec: libm `tgamma` at the positive-integer arguments
the verified statements exercise: `Γ(n) = (n-1)!` (§4.4: `!` computes the
gamma-function value `Γ(b+1)`, matching factorial on non-negative integers);
other arguments are outside the exact rational model. -/
def tgamma (x : ℚ) : ℚ :=
  if 1 ≤ x.num ∧ x.den = 1 then ((x.num.toNat - 1).factorial : ℚ) else 0

/-- `op_order` from the source: precedence classes, highest first. -/
def op_order : List (List Char) := [['^'], ['*', '/'], ['+', '-'], ['(']]

/-- Rank of an operator character: the index of its class in `op_order`,
`-1` when it is in none (as computed by the `strpbrk` loop of
`compare_operators`; the last matching index wins, as in the C loop). -/
def rankOf (c : Char) : Int :=
  op_order.enum.foldl (fun r p => if c ∈ p.2 then (p.1 : Int) else r) (-1)

/-- `compare_operators` from the source: nonzero (true) iff the first
operator ranks strictly before the second in `op_order`, i.e. binds
strictly tighter. -/
def compare_operators (op1 op2 : Char) : Bool :=
  decide (rankOf op1 < rankOf op2)

/-- `is_unary` from the source. -/
def is_unary (op prev : Char) : Bool :=
  if prev = '!' && op ≠ '!' then false
  else
    is_operator prev || prev = nulChar
      || ((is_operand prev || prev = ')') && op = '!')

/-- `apply_operator` from the source: apply an operator to the operand stack.
`none` models `return false`.  In the binary `switch`, a character other than
the five binary operators leaves the C `result` variable uninitialized and
pushes it anyway (returning true); that unreachable branch (see the claim
about `(` never being applied) is modelled by pushing a junk value. -/
def apply_operator (c : Char) (unary : Bool) (vals : List ℚ) : Option (List ℚ) :=
  match vals with
  | [] => none
  | val2 :: rest =>
    if unary then
      if c = '+' then some (val2 :: rest)
      else if c = '-' then some ((-val2) :: rest)
      else if c = '!' then some (tgamma (val2 + 1) :: rest)
      else none
    else
      match rest with
      | [] => none
      | val1 :: rest2 =>
        let result : ℚ :=
          if c = '+' then val1 + val2
          else if c = '-' then val1 - val2
          else if c = '*' then val1 * val2
          else if c = '/' then val1 / val2
          else if c = '^' then qpow val1 val2
          else 0
        some (result :: rest2)

/-- Error taxonomy of the program (`ERROR_*` codes of the C source, named as
in the specification's taxonomy). -/
inductive SYError where
  | SyntaxOperandError
  | SyntaxError
  | StackSyntaxError
  | MismatchedRightParenError
  | UnclosedLeftParenError
  | UnrecognizedCharacterError
  | NoInputError
deriving DecidableEq, Repr

/-- State of the scan loop of `shunting_yard`: the operand stack `vals`
(head = top), the operator stack `ops` (symbol and unary flag, head = top),
`token_pos` (`none` for `-1`), `paren_depth`, `paren_pos` (`none` for its
initial `-1`), `prev_chr`, and the ghost trace `tr` of operator characters
passed to `apply_operator`. -/
structure SYState where
  vals : List ℚ
  ops : List (Char × Bool)
  tokenStart : Option ℕ
  parenDepth : ℕ
  parenPos : Option ℕ
  prevChr : Char
  tr : List Char
deriving Repr

/-- Initial state of one evaluation. -/
def initState : SYState :=
  ⟨[], [], none, 0, none, nulChar, []⟩

/-- An error outcome: kind, column (`none` = `NO_COL_NUM`), ghost trace. -/
abbrev SYFail : Type := SYError × Option ℕ × List Char

/-- The conditional single application performed when an operator character
is scanned (the `if` of lines 124-133 followed by the push of line 135):
apply the top of the operator stack if the stack is nonempty, the unary
tie-break permits, and `compare_operators` ranks it strictly tighter than
`c`; then push `(c, u)`.  Returns the updated trace and either `none`
(apply failed, `ERROR_SYNTAX`) or the new operator and operand stacks. -/
def resolve_op (c : Char) (u : Bool) (ops : List (Char × Bool)) (vals : List ℚ)
    (tr : List Char) : List Char × Option (List (Char × Bool) × List ℚ) :=
  match ops with
  | [] => (tr, some ([(c, u)], vals))
  | (t, tu) :: rest =>
    if ((u && tu) || !u) && compare_operators t c then
      match apply_operator t tu vals with
      | none => (tr ++ [t], none)
      | some v2 => (tr ++ [t], some ((c, u) :: rest, v2))
    else (tr, some ((c, u) :: (t, tu) :: rest, vals))

/-- The `while` loop of the right-parenthesis branch (lines 149-164): pop and
apply operators until the `(` marker is popped (found = `true`) or the stack
runs out (found = `false`; the C loop then just ends, leaving the depth
untouched).  Returns the updated trace and either `none` (apply failed,
`ERROR_SYNTAX`) or the remaining operator stack, operand stack and flag. -/
def rparen_loop : List (Char × Bool) → List ℚ → List Char →
    List Char × Option (List (Char × Bool) × List ℚ × Bool)
  | [], vals, tr => (tr, some ([], vals, false))
  | (t, tu) :: rest, vals, tr =>
    if t = '(' then (tr, some (rest, vals, true))
    else
      match apply_operator t tu vals with
      | none => (tr ++ [t], none)
      | some v2 => rparen_loop rest v2 (tr ++ [t])

/-- The end-of-string drain (lines 183-190): pop and apply every remaining
operator.  Returns the updated trace and either `none` (apply failed,
`ERROR_SYNTAX_STACK`) or the final operand stack. -/
def drain_loop : List (Char × Bool) → List ℚ → List Char →
    List Char × Option (List ℚ)
  | [], vals, tr => (tr, some vals)
  | (t, tu) :: rest, vals, tr =>
    match apply_operator t tu vals with
    | none => (tr ++ [t], none)
    | some v2 => drain_loop rest v2 (tr ++ [t])

/-- The end-of-operand-span handling (lines 97-113): when a span is open,
extract `substr(str, token_pos, i - token_pos)`, right-trim it, validate it
(`ERROR_SYNTAX_OPERAND` at the span's start column when it is exactly `"."`,
contains a space, or contains more than one `.`), otherwise push its parsed
value and close the span. -/
def bad_operand (t : List Char) : Bool :=
  t == ['.'] || t.contains ' ' || decide (2 ≤ t.count '.')

/-- See `bad_operand`; this is the span-closing step itself. -/
def close_span (str : List Char) (i : ℕ) (m : SYState) : Except SYFail SYState :=
  match m.tokenStart with
  | none => Except.ok m
  | some tp =>
    let t := rtrim ((str.drop tp).take (i - tp))
    if bad_operand t then
      Except.error (SYError.SyntaxOperandError, some tp, m.tr)
    else
      Except.ok { m with vals := strtod t :: m.vals, tokenStart := none }

/-- The operator / parenthesis / unknown-character classification of one
non-operand, non-space character `c` at column `i` (lines 116-170). -/
def classify (i : ℕ) (c : Char) (m : SYState) : Except SYFail SYState :=
  if is_operator c then
    match resolve_op c (is_unary c m.prevChr) m.ops m.vals m.tr with
    | (tr2, none) => Except.error (SYError.SyntaxError, some i, tr2)
    | (tr2, some (ops2, vals2)) =>
      Except.ok { m with ops := ops2, vals := vals2, tr := tr2 }
  else if c = '(' then
    let d := m.parenDepth + 1
    Except.ok { m with ops := ('(', false) :: m.ops, parenDepth := d,
                       parenPos := if d = 1 then some i else m.parenPos }
  else if c = ')' then
    if m.parenDepth = 0 then
      Except.error (SYError.MismatchedRightParenError, some i, m.tr)
    else
      match rparen_loop m.ops m.vals m.tr with
      | (tr2, none) => Except.error (SYError.SyntaxError, some i, tr2)
      | (tr2, some (ops2, vals2, found)) =>
        Except.ok { m with ops := ops2, vals := vals2, tr := tr2,
                           parenDepth := if found then m.parenDepth - 1 else m.parenDepth }
  else if c = nulChar || c = '\n' then
    Except.ok m
  else
    Except.error (SYError.UnrecognizedCharacterError, some i, m.tr)

/-- The scan loop of `shunting_yard` (lines 89-175) over the indexed
characters of `str ++ "\0"`: spaces are skipped outright; operand characters
open/extend a span; any other character first closes an open span, then is
classified; the `skip` label's newline check stops the scan early, and
otherwise `prev_chr` is updated. -/
def scan (str : List Char) : List (ℕ × Char) → SYState → Except SYFail SYState
  | [], m => Except.ok m
  | (i, c) :: rest, m =>
    if c = ' ' then scan str rest m
    else if is_operand c then
      let m1 := { m with tokenStart := some (m.tokenStart.getD i) }
      if c = '\n' then Except.ok m1 else scan str rest { m1 with prevChr := c }
    else
      match close_span str i m with
      | Except.error e => Except.error e
      | Except.ok m1 =>
        match classify i c m1 with
        | Except.error e => Except.error e
        | Except.ok m2 =>
          if c = '\n' then Except.ok m2 else scan str rest { m2 with prevChr := c }

/-- The post-scan phase (lines 177-196): unclosed-parenthesis check, drain of
the operator stack, and extraction of the final result (`ERROR_NO_INPUT` on
an empty operand stack; otherwise the popped top of the operand stack). -/
def finish (m : SYState) : Except SYFail (ℚ × List Char) :=
  if m.parenDepth ≠ 0 then
    Except.error (SYError.UnclosedLeftParenError, m.parenPos, m.tr)
  else
    match drain_loop m.ops m.vals m.tr with
    | (tr2, none) => Except.error (SYError.StackSyntaxError, none, tr2)
    | (tr2, some vals2) =>
      match vals2 with
      | [] => Except.error (SYError.NoInputError, none, tr2)
      | v :: _ => Except.ok (v, tr2)

/-- One whole evaluation over a character list, ghost trace included. -/
def runSY (str : List Char) : Except SYFail (ℚ × List Char) :=
  match scan str ((str ++ [nulChar]).enum) initState with
  | Except.error e => Except.error e
  | Except.ok m => finish m

/-- `shunting_yard` from the source: evaluate one expression, producing the
numeric result or an error kind with its optional column number. -/
def shunting_yard (s : String) : Except (SYError × Option ℕ) ℚ :=
  match runSY s.data with
  | Except.error (e, col, _) => Except.error (e, col)
  | Except.ok (v, _) => Except.ok v

/-- The ghost trace of one evaluation: every operator character passed to
`apply_operator`, in order, whether the evaluation succeeds or fails. -/
def syTrace (s : String) : List Char :=
  match runSY s.data with
  | Except.error (_, _, tr) => tr
  | Except.ok (_, tr) => tr

/-- Every character of a trace is one of the operator symbols `+ - * / ^ !`. -/
def trOK (tr : List Char) : Prop := ∀ c ∈ tr, is_operator c = true

/-- Every operator-stack entry holds an operator symbol or the `(` marker. -/
def opsOK (ops : List (Char × Bool)) : Prop :=
  ∀ p ∈ ops, is_operator p.1 = true ∨ p.1 = '('

/-- Number of `(` markers on the operator stack. -/
def parenCount (ops : List (Char × Bool)) : ℕ :=
  ops.countP (fun p => decide (p.1 = '('))

/-- The scan-state invariant: well-formed operator stack, `(`-marker count
equal to the parenthesis depth, and a trace of operator symbols only. -/
def OpsInv (m : SYState) : Prop :=
  opsOK m.ops ∧ parenCount m.ops = m.parenDepth ∧ trOK m.tr

attribute [local semireducible] Rat.add Rat.sub Rat.mul Rat.inv Rat.ofScientific

/-- The validation condition of the operand check, as a proposition: the
trimmed text is exactly `"."`, contains a space, or has more than one `.`. -/
lemma bad_operand_iff (t : List Char) :
    bad_operand t = true ↔ (t = ['.'] ∨ ' ' ∈ t ∨ 2 ≤ t.count '.') := by
  simp [bad_operand, List.contains, or_assoc]

/-- C1 (counterexample): the claim predicts that at equal precedence rank the
stacked operator is applied first, making `+ - * / ^` left-associative and
(its own example) making "2^3^2" evaluate to 64.  The program evaluates
"2^3^2" to 512 = 2^(3^2) and "1-2-3" to 2 = 1-(2-3): at equal rank the
stacked operator is not applied, so these operators associate to the right. -/
theorem C1_counterexample :
    shunting_yard "2^3^2" = Except.ok 512 ∧ (512 : ℚ) ≠ 64 ∧
      shunting_yard "1-2-3" = Except.ok 2 ∧ (2 : ℚ) ≠ (1 - 2) - 3 := by
  refine ⟨by rfl, by decide, by rfl, by decide⟩

/-- C1 (amended): for a scanned operator `c` the resolver applies at most one
stacked operator — the top entry — and only when it ranks strictly higher
precedence than `c` (subject to the unary tie-break); at equal precedence
rank the stacked entry is not applied and `c` is simply pushed on top, so
`+ - * /` and `^` effectively evaluate right-associatively ("2^3^2" = 512,
"1-2-3" = 2). -/
theorem C1_amended :
    (∀ c u t tu rest vals tr, rankOf t = rankOf c →
        resolve_op c u ((t, tu) :: rest) vals tr =
          (tr, some ((c, u) :: (t, tu) :: rest, vals))) ∧
    (∀ c u ops vals tr ops2 vals2,
        (resolve_op c u ops vals tr).2 = some (ops2, vals2) →
        ops.length ≤ ops2.length ∧ ops2.length ≤ ops.length + 1) ∧
    shunting_yard "2^3^2" = Except.ok 512 ∧
    shunting_yard "1-2-3" = Except.ok 2 := by
  refine ⟨?_, ?_, by rfl, by rfl⟩
  · intro c u t tu rest vals tr h
    have hc : compare_operators t c = false := by
      simp [compare_operators, h]
    simp [resolve_op, hc]
  · intro c u ops vals tr ops2 vals2 h
    match ops with
    | [] =>
      simp [resolve_op] at h
      obtain ⟨h1, -⟩ := h
      subst h1
      simp
    | (t, tu) :: rest =>
      by_cases hcond : (((u && tu) || !u) && compare_operators t c) = true
      · rcases ha : apply_operator t tu vals with _ | v2
        · simp [resolve_op, hcond, ha] at h
        · simp [resolve_op, hcond, ha] at h
          obtain ⟨h1, -⟩ := h
          subst h1
          simp only [List.length_cons]
          omega
      · simp [resolve_op, hcond] at h
        obtain ⟨h1, -⟩ := h
        subst h1
        simp only [List.length_cons]
        omega

/-- C1 (amended) witness: at equal rank (`+` and `-` share a precedence
class) the stacked operator is left in place and the new one pushed. -/
theorem C1_amended_witness :
    resolve_op '-' false [('+', false)] [] [] =
      ([], some ([('-', false), ('+', false)], [])) :=
  C1_amended.1 '-' false '+' false [] [] [] (by decide)

/-- C2: `apply_operator` fails exactly on operand-stack underflow (empty
before the first pop; for a binary operator, empty again before the second
pop) or on an unknown unary operator; otherwise the unary operators `+ - !`
map the popped `b` to `b`, `-b`, `Γ(b+1)`, and the binary operators pop `b`
then `a` and push `a+b`, `a-b`, `a*b`, `a/b` (the value model's division,
never a raised error), `a^b`; the rest of the stack is untouched. -/
theorem C2_apply_operator_cases :
    (∀ c u, apply_operator c u [] = none) ∧
    (∀ b s, apply_operator '+' true (b :: s) = some (b :: s)) ∧
    (∀ b s, apply_operator '-' true (b :: s) = some ((-b) :: s)) ∧
    (∀ b s, apply_operator '!' true (b :: s) = some (tgamma (b + 1) :: s)) ∧
    (∀ c b s, c ≠ '+' → c ≠ '-' → c ≠ '!' →
        apply_operator c true (b :: s) = none) ∧
    (∀ c b, apply_operator c false [b] = none) ∧
    (∀ b a s, apply_operator '+' false (b :: a :: s) = some ((a + b) :: s)) ∧
    (∀ b a s, apply_operator '-' false (b :: a :: s) = some ((a - b) :: s)) ∧
    (∀ b a s, apply_operator '*' false (b :: a :: s) = some ((a * b) :: s)) ∧
    (∀ b a s, apply_operator '/' false (b :: a :: s) = some ((a / b) :: s)) ∧
    (∀ b a s, apply_operator '^' false (b :: a :: s) = some (qpow a b :: s)) := by
  refine ⟨fun c u => rfl, fun b s => rfl, fun b s => rfl, fun b s => rfl,
    ?_, fun c b => rfl, fun b a s => rfl, fun b a s => rfl, fun b a s => rfl,
    fun b a s => rfl, fun b a s => rfl⟩
  intro c b s h1 h2 h3
  simp [apply_operator, h1, h2, h3]

/-- C2 witness: an unknown unary operator (here `*`) fails even without
underflow. -/
theorem C2_witness : apply_operator '*' true (5 :: []) = none :=
  C2_apply_operator_cases.2.2.2.2.1 '*' 5 [] (by decide) (by decide) (by decide)

/-- C3: `is_unary` is a pure function of the scanned operator symbol and the
previous non-skip character; it classifies the occurrence as unary exactly
when the previous character is an operator symbol, or there is none (NUL, at
the start), or the operator is `!` and the previous character is an operand
character or `)` — except that a previous `!` with a current non-`!`
operator is not unary. -/
theorem C3_is_unary_rule (op prev : Char) :
    is_unary op prev = true ↔
      ¬ (prev = '!' ∧ op ≠ '!') ∧
      (is_operator prev = true ∨ prev = nulChar ∨
        ((is_operand prev = true ∨ prev = ')') ∧ op = '!')) := by
  by_cases h1 : prev = '!' <;> by_cases h2 : op = '!' <;>
    simp [is_unary, h1, h2, is_operator, or_assoc]

/-- C4: unary chaining — "--5" evaluates to 5, and "-3!" evaluates to -6:
the unary minus is applied after the postfix factorial, -(Γ(3+1)) = -6. -/
theorem C4_unary_chaining :
    shunting_yard "--5" = Except.ok 5 ∧
    shunting_yard "-3!" = Except.ok (-6) ∧
    tgamma ((3 : ℚ) + 1) = 6 := by
  refine ⟨by rfl, by rfl, by decide⟩

/-- C5: when an operand span closes, the scan fails with SyntaxOperandError
at the span's start column exactly when the span's text, trailing whitespace
stripped, is `"."`, contains a space, or contains more than one `.`;
otherwise the parsed value of that text is pushed onto the operand stack and
the span is closed. -/
theorem C5_operand_validation (str : List Char) (i tp : ℕ) (m : SYState)
    (h : m.tokenStart = some tp) :
    (close_span str i m = Except.error (SYError.SyntaxOperandError, some tp, m.tr) ↔
      (rtrim ((str.drop tp).take (i - tp)) = ['.'] ∨
        ' ' ∈ rtrim ((str.drop tp).take (i - tp)) ∨
        2 ≤ (rtrim ((str.drop tp).take (i - tp))).count '.')) ∧
    (¬ (rtrim ((str.drop tp).take (i - tp)) = ['.'] ∨
        ' ' ∈ rtrim ((str.drop tp).take (i - tp)) ∨
        2 ≤ (rtrim ((str.drop tp).take (i - tp))).count '.') →
      close_span str i m =
        Except.ok { m with
          vals := strtod (rtrim ((str.drop tp).take (i - tp))) :: m.vals,
          tokenStart := none }) := by
  have hiff := bad_operand_iff (rtrim ((str.drop tp).take (i - tp)))
  by_cases hb : bad_operand (rtrim ((str.drop tp).take (i - tp))) = true
  · rw [hiff] at hb
    constructor
    · simp [close_span, h, hiff.symm, hb]
    · intro hcon
      exact absurd hb hcon
  · have hb2 := hb
    rw [hiff] at hb2
    constructor
    · simp [close_span, h, hb, hb2]
    · intro _
      simp [close_span, h, hb]

/-- C5 witness: the bare-dot span `"."` is rejected at its start column. -/
theorem C5_witness :
    close_span ['.'] 1 ⟨[], [], some 0, 0, none, '.', []⟩ =
      Except.error (SYError.SyntaxOperandError, some 0, []) :=
  (C5_operand_validation ['.'] 1 0 ⟨[], [], some 0, 0, none, '.', []⟩ rfl).1.mpr
    (by decide)

/-- C6 (counterexample): for the input "(1)(2" the unclosed-parenthesis
error is reported at column 3 — the open paren of the second, unclosed group
— while the first-seen open paren of the input is at column 0 (the input's
first character). -/
theorem C6_counterexample :
    shunting_yard "(1)(2" = Except.error (SYError.UnclosedLeftParenError, some 3) ∧
    "(1)(2".data.head? = some '(' ∧ (3 : ℕ) ≠ 0 := by
  refine ⟨by rfl, by rfl, by decide⟩

/-- C6 (amended): a `)` scanned at parenthesis depth zero fails with
MismatchedRightParenError at that `)`'s column; a `(` scanned at depth zero
records its own column as the paren position, while a `(` at nonzero depth
leaves the recorded position unchanged; and input ending at nonzero depth
fails with UnclosedLeftParenError at the recorded position — the column of
the most recent `(` that raised the depth from zero (for "(1)(2" that is
column 3, not the input's first `(`). -/
theorem C6_amended :
    (∀ i m, m.parenDepth = 0 →
        classify i ')' m =
          Except.error (SYError.MismatchedRightParenError, some i, m.tr)) ∧
    (∀ i m, m.parenDepth = 0 →
        classify i '(' m =
          Except.ok { m with ops := ('(', false) :: m.ops,
                             parenDepth := 1, parenPos := some i }) ∧
    (∀ i m, m.parenDepth ≠ 0 →
        classify i '(' m =
          Except.ok { m with ops := ('(', false) :: m.ops,
                             parenDepth := m.parenDepth + 1 }) ∧
    (∀ m, m.parenDepth ≠ 0 →
        finish m = Except.error (SYError.UnclosedLeftParenError, m.parenPos, m.tr)) ∧
    shunting_yard "(1)(2" = Except.error (SYError.UnclosedLeftParenError, some 3) := by
  have hop1 : is_operator ')' = false := by decide
  have hop2 : is_operator '(' = false := by decide
  refine ⟨?_, ?_, ?_, ?_, by rfl⟩
  · intro i m h
    simp [classify, hop1, h]
  · intro i m h
    simp [classify, hop2, h]
  · intro i m h
    have hne : ¬ (m.parenDepth + 1 = 1) := by omega
    simp [classify, hop2, hne]
  · intro m h
    rw [finish, if_pos h]

/-- C6 (amended) witness: a bare `)` at depth zero is rejected at its own
column. -/
theorem C6_witness :
    classify 0 ')' initState =
      Except.error (SYError.MismatchedRightParenError, some 0, []) :=
  C6_amended.1 0 initState rfl

/-- C7 (counterexample): the claim requires more-than-one remaining operand
to be treated as a syntax error; on "(1)(2)" the scan ends with the two
operands [2, 1] on the stack, yet the program silently returns the top one
(2) with no error. -/
theorem C7_counterexample :
    (∃ m : SYState,
        scan "(1)(2)".data (("(1)(2)".data ++ [nulChar]).enum) initState =
            Except.ok m ∧
          m.vals = [2, 1] ∧ finish m = Except.ok (2, m.tr)) ∧
    shunting_yard "(1)(2)" = Except.ok 2 := by
  exact ⟨⟨_, rfl, by rfl, by rfl⟩, by rfl⟩

/-- C7 (amended): after the end-of-input drain succeeds, an empty operand
stack fails with NoInputError and no column (e.g. empty or whitespace-only
input); otherwise the most recently pushed remaining operand is returned as
the result — also when more than one operand remains, in which case the
others are silently discarded rather than reported as a syntax error. -/
theorem C7_amended :
    (∀ (m : SYState) (tr2 : List Char) (vals2 : List ℚ), m.parenDepth = 0 →
        drain_loop m.ops m.vals m.tr = (tr2, some vals2) →
        (vals2 = [] → finish m = Except.error (SYError.NoInputError, none, tr2)) ∧
        (∀ v rest, vals2 = v :: rest → finish m = Except.ok (v, tr2))) ∧
    shunting_yard "" = Except.error (SYError.NoInputError, none) ∧
    shunting_yard " " = Except.error (SYError.NoInputError, none) ∧
    shunting_yard "(1)(2)" = Except.ok 2 := by
  refine ⟨?_, by rfl, by rfl, by rfl⟩
  intro m tr2 vals2 h hd
  constructor
  · intro hv
    rw [finish, if_neg (by omega), hd, hv]
  · intro v rest hv
    rw [finish, if_neg (by omega), hd, hv]

/-- C7 (amended) witness: the empty run (no operators, no operands) yields
NoInputError with no column. -/
theorem C7_witness :
    finish initState = Except.error (SYError.NoInputError, none, []) :=
  (C7_amended.1 initState [] [] rfl rfl).1 rfl

/-- C8: when an application during the end-of-input drain of the operator
stack fails (operand underflow), evaluation fails with StackSyntaxError and
no column number; "2+" is such an input. -/
theorem C8_drain_underflow :
    (∀ m : SYState, m.parenDepth = 0 →
        (drain_loop m.ops m.vals m.tr).2 = none →
        finish m =
          Except.error (SYError.StackSyntaxError, none,
            (drain_loop m.ops m.vals m.tr).1)) ∧
    shunting_yard "2+" = Except.error (SYError.StackSyntaxError, none) := by
  refine ⟨?_, by rfl⟩
  intro m h1 h2
  rcases hd : drain_loop m.ops m.vals m.tr with ⟨tr2, r⟩
  rw [hd] at h2
  simp at h2
  rw [finish, if_neg (by omega), hd, h2]

/-- C8 witness: draining the single stacked binary `+` over the lone operand
2 underflows and is reported as StackSyntaxError with no column. -/
theorem C8_witness :
    finish ⟨[2], [('+', false)], none, 0, none, '+', []⟩ =
      Except.error (SYError.StackSyntaxError, none, ['+']) :=
  C8_drain_underflow.1 ⟨[2], [('+', false)], none, 0, none, '+', []⟩ rfl (by rfl)

lemma operator_ne_paren {c : Char} (h : is_operator c = true) : c ≠ '(' := by
  simp [is_operator, or_assoc] at h
  rcases h with h | h | h | h | h | h <;> subst h <;> decide

lemma compare_operators_paren (c : Char) (h : is_operator c = true) :
    compare_operators '(' c = false := by
  simp [is_operator, or_assoc] at h
  rcases h with h | h | h | h | h | h <;> subst h <;> decide

lemma parenCount_cons_ne {t : Char} {tu : Bool} {rest : List (Char × Bool)}
    (h : t ≠ '(') : parenCount ((t, tu) :: rest) = parenCount rest := by
  simp [parenCount, List.countP_cons, h]

lemma parenCount_cons_paren {tu : Bool} {rest : List (Char × Bool)} :
    parenCount (('(', tu) :: rest) = parenCount rest + 1 := by
  simp [parenCount, List.countP_cons]

lemma trOK_append {tr : List Char} {t : Char} (ht : trOK tr)
    (h : is_operator t = true) : trOK (tr ++ [t]) := by
  intro c hc
  rcases List.mem_append.mp hc with h1 | h1
  · exact ht c h1
  · rw [List.mem_singleton.mp h1]
    exact h

lemma resolve_op_inv (c : Char) (u : Bool) (ops : List (Char × Bool))
    (vals : List ℚ) (tr : List Char) (hc : is_operator c = true)
    (ho : opsOK ops) (ht : trOK tr) :
    trOK (resolve_op c u ops vals tr).1 ∧
    (∀ ops2 vals2, (resolve_op c u ops vals tr).2 = some (ops2, vals2) →
      opsOK ops2 ∧ parenCount ops2 = parenCount ops) := by
  match ops with
  | [] =>
    refine ⟨ht, ?_⟩
    intro ops2 vals2 h2
    simp [resolve_op] at h2
    obtain ⟨h1, -⟩ := h2
    subst h1
    constructor
    · intro p hp
      rw [List.mem_singleton.mp hp]
      exact Or.inl hc
    · exact parenCount_cons_ne (operator_ne_paren hc)
  | (t, tu) :: rest =>
    have hrest : opsOK rest := fun p hp => ho p (List.mem_cons_of_mem _ hp)
    by_cases hcond : (((u && tu) || !u) && compare_operators t c) = true
    · have hcmp : compare_operators t c = true := (Bool.and_eq_true_iff.mp hcond).2
      have htne : t ≠ '(' := by
        intro he
        subst he
        rw [compare_operators_paren c hc] at hcmp
        exact Bool.false_ne_true hcmp
      have htop : is_operator t = true := by
        rcases ho (t, tu) (List.mem_cons_self _ _) with h | h
        · exact h
        · exact absurd h htne
      have htr2 : trOK (tr ++ [t]) := trOK_append ht htop
      rcases ha : apply_operator t tu vals with _ | v2
      · constructor
        · simp [resolve_op, hcond, ha]
          exact htr2
        · intro ops2 vals2 h2
          simp [resolve_op, hcond, ha] at h2
      · constructor
        · simp [resolve_op, hcond, ha]
          exact htr2
        · intro ops2 vals2 h2
          simp [resolve_op, hcond, ha] at h2
          obtain ⟨h1, -⟩ := h2
          subst h1
          constructor
          · intro p hp
            rcases List.mem_cons.mp hp with h | h
            · rw [h]; exact Or.inl hc
            · exact hrest p h
          · rw [parenCount_cons_ne (operator_ne_paren hc),
              parenCount_cons_ne htne]
    · constructor
      · simp [resolve_op, hcond]
        exact ht
      · intro ops2 vals2 h2
        simp [resolve_op, hcond] at h2
        obtain ⟨h1, -⟩ := h2
        subst h1
        constructor
        · intro p hp
          rcases List.mem_cons.mp hp with h | h
          · rw [h]; exact Or.inl hc
          · exact ho p h
        · rw [parenCount_cons_ne (operator_ne_paren hc)]

lemma rparen_loop_inv (ops : List (Char × Bool)) (vals : List ℚ)
    (tr : List Char) (ho : opsOK ops) (ht : trOK tr) :
    trOK (rparen_loop ops vals tr).1 ∧
    (∀ ops2 vals2 found,
      (rparen_loop ops vals tr).2 = some (ops2, vals2, found) →
      opsOK ops2 ∧
      (found = true → parenCount ops = parenCount ops2 + 1) ∧
      (found = false → parenCount ops = 0)) := by
  induction ops generalizing vals tr with
  | nil =>
    refine ⟨ht, ?_⟩
    intro ops2 vals2 found h2
    simp [rparen_loop] at h2
    obtain ⟨h1, -, h3⟩ := h2
    subst h1
    subst h3
    exact ⟨fun p hp => absurd hp (List.not_mem_nil p),
      fun hcontra => absurd hcontra (by decide), fun _ => rfl⟩
  | cons p rest ih =>
    obtain ⟨t, tu⟩ := p
    have hrest : opsOK rest := fun q hq => ho q (List.mem_cons_of_mem _ hq)
    by_cases hp : t = '('
    · subst hp
      constructor
      · simp [rparen_loop]
        exact ht
      · intro ops2 vals2 found h2
        simp [rparen_loop] at h2
        obtain ⟨h1, -, h3⟩ := h2
        subst h1
        subst h3
        refine ⟨hrest, fun _ => parenCount_cons_paren,
          fun hcontra => absurd hcontra (by decide)⟩
    · have htop : is_operator t = true := by
        rcases ho (t, tu) (List.mem_cons_self _ _) with h | h
        · exact h
        · exact absurd h hp
      have htr2 : trOK (tr ++ [t]) := trOK_append ht htop
      rcases ha : apply_operator t tu vals with _ | v2
      · constructor
        · simp [rparen_loop, hp, ha]
          exact htr2
        · intro ops2 vals2 found h2
          simp [rparen_loop, hp, ha] at h2
      · have ihs := ih v2 (tr ++ [t]) hrest htr2
        constructor
        · simp only [rparen_loop, if_neg hp, ha]
          exact ihs.1
        · intro ops2 vals2 found h2
          simp only [rparen_loop, if_neg hp, ha] at h2
          obtain ⟨hok, hfound, hnot⟩ := ihs.2 ops2 vals2 found h2
          refine ⟨hok, ?_, ?_⟩
          · intro hf
            rw [parenCount_cons_ne hp]
            exact hfound hf
          · intro hf
            rw [parenCount_cons_ne hp]
            exact hnot hf

lemma drain_loop_inv (ops : List (Char × Bool)) (vals : List ℚ)
    (tr : List Char) (ho : opsOK ops) (hz : parenCount ops = 0)
    (ht : trOK tr) : trOK (drain_loop ops vals tr).1 := by
  induction ops generalizing vals tr with
  | nil => exact ht
  | cons p rest ih =>
    obtain ⟨t, tu⟩ := p
    have hp : t ≠ '(' := by
      intro he
      subst he
      rw [parenCount_cons_paren] at hz
      exact Nat.succ_ne_zero _ hz
    have hzr : parenCount rest = 0 := by
      rw [parenCount_cons_ne hp] at hz
      exact hz
    have hrest : opsOK rest := fun q hq => ho q (List.mem_cons_of_mem _ hq)
    have htop : is_operator t = true := by
      rcases ho (t, tu) (List.mem_cons_self _ _) with h | h
      · exact h
      · exact absurd h hp
    have htr2 : trOK (tr ++ [t]) := trOK_append ht htop
    rcases ha : apply_operator t tu vals with _ | v2
    · simp [drain_loop, ha]
      exact htr2
    · simp only [drain_loop, ha]
      exact ih v2 (tr ++ [t]) hrest hzr htr2

lemma close_span_inv (str : List Char) (i : ℕ) (m : SYState) (h : OpsInv m) :
    (∀ e col tre, close_span str i m = Except.error (e, col, tre) → trOK tre) ∧
    (∀ m1, close_span str i m = Except.ok m1 → OpsInv m1) := by
  rcases hts : m.tokenStart with _ | tp
  · constructor
    · intro e col tre h2
      simp [close_span, hts] at h2
    · intro m1 h2
      simp [close_span, hts] at h2
      rw [← h2]
      exact h
  · by_cases hb : bad_operand (rtrim ((str.drop tp).take (i - tp))) = true
    · constructor
      · intro e col tre h2
        simp [close_span, hts, hb] at h2
        rw [← h2.2.2]
        exact h.2.2
      · intro m1 h2
        simp [close_span, hts, hb] at h2
    · constructor
      · intro e col tre h2
        simp [close_span, hts, hb] at h2
      · intro m1 h2
        simp [close_span, hts, hb] at h2
        rw [← h2]
        exact ⟨h.1, h.2.1, h.2.2⟩

lemma classify_inv (i : ℕ) (c : Char) (m : SYState) (h : OpsInv m) :
    (∀ e col tre, classify i c m = Except.error (e, col, tre) → trOK tre) ∧
    (∀ m2, classify i c m = Except.ok m2 → OpsInv m2) := by
  obtain ⟨ho, hz, ht⟩ := h
  by_cases hop : is_operator c = true
  · have hres := resolve_op_inv c (is_unary c m.prevChr) m.ops m.vals m.tr hop ho ht
    rcases hr : resolve_op c (is_unary c m.prevChr) m.ops m.vals m.tr with ⟨tr2, _ | ⟨ops2, vals2⟩⟩
    · constructor
      · intro e col tre h2
        simp [classify, hop, hr] at h2
        rw [← h2.2.2]
        rw [hr] at hres
        exact hres.1
      · intro m2 h2
        simp [classify, hop, hr] at h2
    · constructor
      · intro e col tre h2
        simp [classify, hop, hr] at h2
      · intro m2 h2
        simp [classify, hop, hr] at h2
        rw [hr] at hres
        obtain ⟨hok, hcnt⟩ := hres.2 ops2 vals2 rfl
        rw [← h2]
        exact ⟨hok, by simpa [hcnt] using hz, hres.1⟩
  · rw [Bool.not_eq_true] at hop
    by_cases hlp : c = '('
    · subst hlp
      constructor
      · intro e col tre h2
        simp [classify, hop] at h2
      · intro m2 h2
        simp [classify, hop] at h2
        rw [← h2]
        refine ⟨?_, ?_, ht⟩
        · intro p hp
          rcases List.mem_cons.mp hp with h | h
          · rw [h]; exact Or.inr rfl
          · exact ho p h
        · simp [parenCount_cons_paren, hz]
    · by_cases hrp : c = ')'
      · subst hrp
        by_cases hd : m.parenDepth = 0
        · constructor
          · intro e col tre h2
            simp [classify, hop, hlp, hd] at h2
            rw [← h2.2.2]
            exact ht
          · intro m2 h2
            simp [classify, hop, hlp, hd] at h2
        · have hres := rparen_loop_inv m.ops m.vals m.tr ho ht
          rcases hr : rparen_loop m.ops m.vals m.tr with ⟨tr2, _ | ⟨ops2, vals2, found⟩⟩
          · constructor
            · intro e col tre h2
              simp [classify, hop, hlp, hd, hr] at h2
              rw [← h2.2.2]
              rw [hr] at hres
              exact hres.1
            · intro m2 h2
              simp [classify, hop, hlp, hd, hr] at h2
          · constructor
            · intro e col tre h2
              simp [classify, hop, hlp, hd, hr] at h2
            · intro m2 h2
              simp [classify, hop, hlp, hd, hr] at h2
              rw [hr] at hres
              obtain ⟨hok, hfound, hnot⟩ := hres.2 ops2 vals2 found rfl
              rw [← h2]
              refine ⟨hok, ?_, hres.1⟩
              rcases found with _ | _
              · exact absurd (hz ▸ hnot rfl) hd
              · have h5 := hfound rfl
                have h6 : (if (true : Bool) = true then m.parenDepth - 1
                    else m.parenDepth) = m.parenDepth - 1 := by simp
                rw [h6]
                dsimp only
                omega
      · by_cases hcn : (c = nulChar || c = '\n') = true
        · constructor
          · intro e col tre h2
            simp [classify, hop, hlp, hrp, hcn] at h2
          · intro m2 h2
            simp [classify, hop, hlp, hrp, hcn] at h2
            rw [← h2]
            exact ⟨ho, hz, ht⟩
        · constructor
          · intro e col tre h2
            simp [classify, hop, hlp, hrp, hcn] at h2
            rw [← h2.2.2]
            exact ht
          · intro m2 h2
            simp [classify, hop, hlp, hrp, hcn] at h2

lemma scan_inv (str : List Char) (l : List (ℕ × Char)) (m : SYState)
    (h : OpsInv m) :
    (∀ e col tre, scan str l m = Except.error (e, col, tre) → trOK tre) ∧
    (∀ m2, scan str l m = Except.ok m2 → OpsInv m2) := by
  induction l generalizing m with
  | nil =>
    refine ⟨fun e col tre h2 => by simp [scan] at h2, fun m2 h2 => ?_⟩
    simp [scan] at h2
    rw [← h2]
    exact h
  | cons p rest ih =>
    obtain ⟨i, c⟩ := p
    by_cases hsp : c = ' '
    · constructor
      · intro e col tre h2
        rw [scan, if_pos hsp] at h2
        exact (ih m h).1 e col tre h2
      · intro m2 h2
        rw [scan, if_pos hsp] at h2
        exact (ih m h).2 m2 h2
    · by_cases hod : is_operand c = true
      · have hinv1 : OpsInv { m with tokenStart := some (m.tokenStart.getD i) } :=
          ⟨h.1, h.2.1, h.2.2⟩
        by_cases hnl : c = '\n'
        · constructor
          · intro e col tre h2
            rw [scan, if_neg hsp, if_pos hod, if_pos hnl] at h2
            simp at h2
          · intro m2 h2
            rw [scan, if_neg hsp, if_pos hod, if_pos hnl] at h2
            simp at h2
            rw [← h2]
            exact hinv1
        · have hinv2 :
              OpsInv { m with tokenStart := some (m.tokenStart.getD i), prevChr := c } :=
            ⟨h.1, h.2.1, h.2.2⟩
          constructor
          · intro e col tre h2
            rw [scan, if_neg hsp, if_pos hod, if_neg hnl] at h2
            exact (ih _ hinv2).1 e col tre h2
          · intro m2 h2
            rw [scan, if_neg hsp, if_pos hod, if_neg hnl] at h2
            exact (ih _ hinv2).2 m2 h2
      · have hcs := close_span_inv str i m h
        rcases hc : close_span str i m with ⟨e1, col1, tre1⟩ | m1
        · constructor
          · intro e col tre h2
            simp only [scan, if_neg hsp, if_neg hod, hc] at h2
            injection h2 with h3
            rw [h3] at hc
            exact hcs.1 e col tre hc
          · intro m2 h2
            simp only [scan, if_neg hsp, if_neg hod, hc] at h2
            cases h2
        · have hm1 : OpsInv m1 := hcs.2 m1 hc
          have hcl := classify_inv i c m1 hm1
          rcases hcl2 : classify i c m1 with ⟨e1, col1, tre1⟩ | m2
          · constructor
            · intro e col tre h2
              simp only [scan, if_neg hsp, if_neg hod, hc, hcl2] at h2
              injection h2 with h3
              rw [h3] at hcl2
              exact hcl.1 e col tre hcl2
            · intro m3 h2
              simp only [scan, if_neg hsp, if_neg hod, hc, hcl2] at h2
              cases h2
          · have hm2 : OpsInv m2 := hcl.2 m2 hcl2
            by_cases hnl : c = '\n'
            · constructor
              · intro e col tre h2
                simp only [scan, if_neg hsp, if_neg hod, hc, hcl2, if_pos hnl] at h2
                cases h2
              · intro m3 h2
                simp only [scan, if_neg hsp, if_neg hod, hc, hcl2, if_pos hnl] at h2
                injection h2 with h3
                rw [← h3]
                exact hm2
            · have hinv3 : OpsInv { m2 with prevChr := c } :=
                ⟨hm2.1, hm2.2.1, hm2.2.2⟩
              constructor
              · intro e col tre h2
                simp only [scan, if_neg hsp, if_neg hod, hc, hcl2, if_neg hnl] at h2
                exact (ih _ hinv3).1 e col tre h2
              · intro m3 h2
                simp only [scan, if_neg hsp, if_neg hod, hc, hcl2, if_neg hnl] at h2
                exact (ih _ hinv3).2 m3 h2

lemma finish_inv (m : SYState) (h : OpsInv m) :
    (∀ e col tre, finish m = Except.error (e, col, tre) → trOK tre) ∧
    (∀ v tre, finish m = Except.ok (v, tre) → trOK tre) := by
  obtain ⟨ho, hz, ht⟩ := h
  by_cases hd : m.parenDepth = 0
  · have hdr := drain_loop_inv m.ops m.vals m.tr ho (hz.trans hd) ht
    rcases hr : drain_loop m.ops m.vals m.tr with ⟨tr2, _ | vals2⟩
    · constructor
      · intro e col tre h2
        rw [finish, if_neg (by omega), hr] at h2
        injection h2 with h3
        rw [hr] at hdr
        injection h3 with h4 h5
        injection h5 with h6 h7
        rw [← h7]
        exact hdr
      · intro v tre h2
        rw [finish, if_neg (by omega), hr] at h2
        cases h2
    · rcases vals2 with _ | ⟨v1, rest1⟩
      · constructor
        · intro e col tre h2
          rw [finish, if_neg (by omega), hr] at h2
          injection h2 with h3
          rw [hr] at hdr
          injection h3 with h4 h5
          injection h5 with h6 h7
          rw [← h7]
          exact hdr
        · intro v tre h2
          rw [finish, if_neg (by omega), hr] at h2
          cases h2
      · constructor
        · intro e col tre h2
          rw [finish, if_neg (by omega), hr] at h2
          cases h2
        · intro v tre h2
          rw [finish, if_neg (by omega), hr] at h2
          injection h2 with h3
          rw [hr] at hdr
          injection h3 with h4 h5
          rw [← h5]
          exact hdr
  · constructor
    · intro e col tre h2
      rw [finish, if_pos hd] at h2
      injection h2 with h3
      injection h3 with h4 h5
      injection h5 with h6 h7
      rw [← h7]
      exact ht
    · intro v tre h2
      rw [finish, if_pos hd] at h2
      cases h2

/-- C9: every operator character ever passed to `apply_operator` during an
evaluation — successful or not — is one of the symbols `+ - * / ^ !`; in
particular a `(` entry pushed on the operator stack is never applied, it is
only removed by its matching `)` (or reported as unclosed at end of input). -/
theorem C9_paren_never_applied (s : String) (c : Char) (h : c ∈ syTrace s) :
    is_operator c = true := by
  have hinit : OpsInv initState := by
    refine ⟨fun p hp => absurd hp (List.not_mem_nil p), rfl,
      fun c1 hc1 => absurd hc1 (List.not_mem_nil c1)⟩
  have hsc := scan_inv s.data ((s.data ++ [nulChar]).enum) initState hinit
  rw [syTrace, runSY] at h
  rcases hs : scan s.data ((s.data ++ [nulChar]).enum) initState with ⟨e1, col1, tre1⟩ | m
  · simp only [hs] at h
    exact hsc.1 e1 col1 tre1 hs c h
  · simp only [hs] at h
    have hm : OpsInv m := hsc.2 m hs
    have hf := finish_inv m hm
    rcases hfin : finish m with ⟨e1, col1, tre1⟩ | ⟨v, tre⟩
    · simp only [hfin] at h
      exact hf.1 e1 col1 tre1 hfin c h
    · simp only [hfin] at h
      exact hf.2 v tre hfin c h

/-- C9 witness: evaluating "1+2" applies exactly the operator `+`, an
operator symbol. -/
theorem C9_witness : is_operator '+' = true :=
  C9_paren_never_applied "1+2" '+' (by decide)
